import Mathlib

/-!
# Verification of the Rego parser front-end (`ast/parser.go`)

A shallow embedding, in Lean 4, of the parts of the hand-written
recursive-descent Rego parser that the specification's claims are about:

* the parsed-term memoization cache (`parsedTermCacheLookup` / `parsedTermCachePush`),
* the top-level statement dispatch loop of `Parse` (package → import → rule → query),
* wildcard variable generation (`parseVar` / `genwildcard`),
* the recursion-depth guard (`enter` / `leave`) and the precedence-tiered
  term-parsing engine it brackets,
* number-literal validation (`parseNumber`),
* rule-head normalization in `parseRules` / `parseHead`,
* the future-keyword / capabilities negotiation in the preamble of `Parse`,
  and `ParserOptions.EffectiveRegoVersion`.

Each definition carries a reference to the Go function it is translated from.
Machine integers of the source are modelled as `Nat`/`Int` (no overflow is
relevant in the embedded fragments), pointers/`nil` as `Option`, and Go's
accumulated-error slices as `List String`.
-/

/-! ## Term cache

Translated from `parsedTermCacheItem` / `parsedTermCache` and the methods
`parsedTermCacheLookup` / `parsedTermCachePush`.  The Go cache is a singly
linked list of items, each holding the parsed term (possibly nil: failed
parses are cached too), the post-parse state, and the source offset the parse
started at; we embed the list as a `List`, generic in the term and state
payload types. -/

structure CacheItem (T : Type) (S : Type) where
  t : Option T
  post : S
  offset : Nat
  deriving Repr, DecidableEq

/-- `parsedTermCacheLookup`:
```
l := p.s.loc.Offset
// stop comparing once the cached offsets are lower than l
for h := p.cache.m; h != nil && h.offset >= l; h = h.next {
    if h.offset == l { return h.t, h.post }
}
return nil, nil
```
The outer `Option` is the `nil, nil` miss; a hit returns the cached
(possibly nil) term together with the post-state. -/
def parsedTermCacheLookup {T S : Type} (l : Nat) : List (CacheItem T S) → Option (Option T × S)
  | [] => none
  | h :: rest =>
    if l ≤ h.offset then
      if h.offset = l then some (h.t, h.post) else parsedTermCacheLookup l rest
    else none

/-- `parsedTermCachePush`:
```
s1 := p.save()
o0 := s0.loc.Offset
entry := parsedTermCacheItem{t: t, post: s1, offset: o0}
// find the first one whose offset is smaller than ours
var e *parsedTermCacheItem
for e = p.cache.m; e != nil; e = e.next {
    if e.offset < o0 { break }
}
entry.next = e
p.cache.m = &entry
```
The new entry becomes the head; its tail is the first suffix of the old list
whose head offset is smaller than `o0` (entries with offset `≥ o0` are
dropped). -/
def parsedTermCachePush {T S : Type} (t : Option T) (o0 : Nat) (s1 : S)
    (c : List (CacheItem T S)) : List (CacheItem T S) :=
  ⟨t, s1, o0⟩ :: c.dropWhile (fun e => decide (o0 ≤ e.offset))

/-- Strictly-decreasing-offset ordering of the cache list. -/
def CacheOrdered {T S : Type} (c : List (CacheItem T S)) : Prop :=
  List.Chain' (fun a b => b.offset < a.offset) c

/-! ## Statement dispatch loop of `Parse`

Translated from the main loop of `Parse` (parser.go lines 453–505).  The four
statement alternatives (`parsePackage`, `parseImport`, `parseRules`,
`parseQuery`) are abstracted as functions from parser state to
(optional result, next state); the loop body is translated literally:

```
for p.s.tok != tokens.EOF {
    s := p.save()
    if pkg := p.parsePackage(); pkg != nil { stmts = append(...); continue }
    else if len(p.s.errors) > 0 { break }
    p.restore(s); s = p.save()
    if imp := p.parseImport(); imp != nil { ...; continue }
    else if len(p.s.errors) > 0 { break }
    p.restore(s)
    if !p.po.SkipRules {
        s = p.save()
        if rules := p.parseRules(); rules != nil { ...; continue }
        else if len(p.s.errors) > 0 { break }
        p.restore(s)
    }
    if body := p.parseQuery(true, tokens.EOF); body != nil { ...; continue }
    break
}
```
`save`/`restore` copy the whole state value, so "restore the snapshot and try
the next alternative on it" is embedded by applying the next alternative to
the same state value `s`. -/

structure LoopState (π : Type) where
  errors : List String
  atEOF : Bool
  payload : π

inductive StepResult (π : Type) (Stmt : Type) where
  | cont (stmts : List Stmt) (s : LoopState π)
  | brk (s : LoopState π)

/-- One iteration of the `Parse` statement loop. -/
def parseStep {π Stmt : Type}
    (pkgF impF : LoopState π → Option Stmt × LoopState π)
    (ruleF : LoopState π → Option (List Stmt) × LoopState π)
    (qryF : LoopState π → Option Stmt × LoopState π)
    (skipRules : Bool) (s : LoopState π) : StepResult π Stmt :=
  match pkgF s with
  | (some pkg, s1) => .cont [pkg] s1
  | (none, s1) =>
    if s1.errors ≠ [] then .brk s1
    else
      match impF s with
      | (some imp, s2) => .cont [imp] s2
      | (none, s2) =>
        if s2.errors ≠ [] then .brk s2
        else
          if !skipRules then
            match ruleF s with
            | (some rules, s3) => .cont rules s3
            | (none, s3) =>
              if s3.errors ≠ [] then .brk s3
              else
                match qryF s with
                | (some body, s4) => .cont [body] s4
                | (none, s4) => .brk s4
          else
            match qryF s with
            | (some body, s4) => .cont [body] s4
            | (none, s4) => .brk s4

/-- The `for p.s.tok != tokens.EOF` loop around `parseStep`, with fuel for
termination (the Go loop terminates because each continuing iteration
consumes input). -/
def parseLoop {π Stmt : Type}
    (pkgF impF : LoopState π → Option Stmt × LoopState π)
    (ruleF : LoopState π → Option (List Stmt) × LoopState π)
    (qryF : LoopState π → Option Stmt × LoopState π)
    (skipRules : Bool) : Nat → List Stmt → LoopState π → List Stmt × LoopState π
  | 0, stmts, s => (stmts, s)
  | fuel + 1, stmts, s =>
    if s.atEOF then (stmts, s)
    else
      match parseStep pkgF impF ruleF qryF skipRules s with
      | .cont new s' => parseLoop pkgF impF ruleF qryF skipRules fuel (stmts ++ new) s'
      | .brk s' => (stmts, s')

/-! ## Decimal digit strings

`genwildcard` builds wildcard names with `fmt.Sprintf("%v%d", WildcardPrefix, c)`;
the faithful Lean image of the `%d` part is `Nat.repr`.  To show that distinct
counters give distinct names we prove `Nat.repr` injective, via a decoding
function that folds decimal digit characters back into the number. -/

def decDigits (a : Nat) : List Char → Nat
  | [] => a
  | c :: cs => decDigits (a * 10 + (c.toNat - 48)) cs

/-- `WildcardPrefix` lives in `ast/term.go`, outside the embedded file; the
parser only prepends it verbatim.  Its concrete value is immaterial for the
claims (distinctness of names comes from the decimal counter suffix): the
real value is the reserved `$` character, reproduced here. -/
def wildcardPfx : String := "$"

/-- `genwildcard`'s name construction: `fmt.Sprintf("%v%d", WildcardPrefix, c)`. -/
def wildcardName (c : Nat) : String := wildcardPfx ++ Nat.repr c

/-! ## Tokens, scanner interface and parser state

The scanner is an external collaborator (`ast/internal/scanner`); the parser
consumes it one token at a time through `doScan`.  We model the scanner as a
pre-lexed list of token entries (token kind, literal text, byte offset, byte
end).  The token alphabet below covers the tokens the embedded fragments
dispatch on; token kinds the embedded productions never see (strings, braces,
keyword tokens such as `if`/`some`/`every`, comments, scan errors) are left
out, so the corresponding `switch` arms of the source collapse into the
`default` arm exactly as they would on these inputs. -/

inductive Tok where
  | lparen | rparen | lbrack | rbrack | comma | dot
  | add | sub | mul | quo | rem
  | equal | neq | lt | gt | lte | gte
  | and_ | or_ | in_
  | number | ident
  | null | true_ | false_
  | whitespace | eof | illegal
  deriving Repr, DecidableEq

/-- `tokens.Token.String()` of the external tokens package (outside `src/`),
modelled from its use sites: error messages (`p.illegal`) and the operator
variable names built by `parseTermOp`. -/
def tokStr : Tok → String
  | .lparen => "("
  | .rparen => ")"
  | .lbrack => "["
  | .rbrack => "]"
  | .comma => ","
  | .dot => "."
  | .add => "plus"
  | .sub => "minus"
  | .mul => "mult"
  | .quo => "div"
  | .rem => "rem"
  | .equal => "equal"
  | .neq => "neq"
  | .lt => "lt"
  | .gt => "gt"
  | .lte => "lte"
  | .gte => "gte"
  | .and_ => "and"
  | .or_ => "or"
  | .in_ => "in"
  | .number => "number"
  | .ident => "ident"
  | .null => "null"
  | .true_ => "true"
  | .false_ => "false"
  | .whitespace => "whitespace"
  | .eof => "eof"
  | .illegal => "illegal"

/-- `tokens.IsKeyword` / membership in `allFutureKeywords`, restricted to this
alphabet (used only for the "token"/"keyword" word in `illegal` messages). -/
def tokIsKeyword : Tok → Bool
  | .null | .true_ | .false_ | .in_ => true
  | _ => false

structure TokEntry where
  tok : Tok
  lit : String
  offset : Nat
  endOff : Nat
  deriving Repr, DecidableEq

/-- The parser's `state` struct: scanner (the undelivered rest of the token
stream), current token/literal/location, accumulated errors (their message
strings), and the wildcard counter.  `skippedNL`, hints and comments play no
role in the embedded fragments and are omitted. -/
structure PState where
  rest : List TokEntry
  tok : Tok
  lit : String
  offset : Nat
  tokEnd : Nat
  lastEnd : Nat
  errors : List String
  wildcard : Nat
  deriving Repr, DecidableEq

/-- The scanner delivering tokens: head of the pre-lexed stream, or `EOF`
forever once it is exhausted; whitespace is skipped when `skipws` (the body of
`doScan`'s loop — comment tokens and scan errors do not occur in the embedded
streams). -/
def scanFrom (skipws : Bool) : List TokEntry → PState → PState
  | [], s => { s with rest := [], tok := .eof, lit := "" }
  | e :: r, s =>
    let s1 : PState :=
      { s with rest := r, tok := e.tok, lit := e.lit, offset := e.offset, tokEnd := e.endOff }
    if e.tok = .whitespace ∧ skipws then scanFrom skipws r s1 else s1

/-- `doScan`: remember the previous token's end in `lastEnd` (whitespace never
moves it), then pull tokens from the scanner. -/
def doScan (skipws : Bool) (s : PState) : PState :=
  let s1 := if s.tok ≠ .whitespace then { s with lastEnd := s.tokEnd } else s
  scanFrom skipws s1.rest s1

/-! AST term values (`ast.Value`), restricted to the constructors the embedded
fragments build: Null, Boolean, Number (decimal string), String, Var, Ref,
Call, Set.  Locations are elided throughout: no embedded claim concerns
them.  The term slices of Ref/Call/Set are a mutually inductive list type
(`ValueList`) rather than `List Value` so that decidable equality can be
derived and concrete runs evaluated by kernel reduction. -/

mutual

inductive Value where
  | null
  | bool (b : Bool)
  | num (s : String)
  | str (s : String)
  | var_ (s : String)
  | ref (ts : ValueList)
  | call (ts : ValueList)
  | set (ts : ValueList)
  deriving DecidableEq

inductive ValueList where
  | nil
  | cons (v : Value) (vs : ValueList)
  deriving DecidableEq

end

/-- Convert an ordinary list of terms into a `ValueList`. -/
def vlist : List Value → ValueList
  | [] => .nil
  | v :: vs => .cons v (vlist vs)

/-- `ast.TypeName`/`ValueName` for the error message in `parseRef`'s head
check (helper from `ast/term.go`, outside the embedded file). -/
def valueName : Value → String
  | .null => "null"
  | .bool _ => "boolean"
  | .num _ => "number"
  | .str _ => "string"
  | .var_ _ => "var"
  | .ref _ => "ref"
  | .call _ => "call"
  | .set _ => "set"

/-- The `Parser` struct: state, term cache, recursion depth and ceiling. -/
structure PParser where
  st : PState
  cache : List (CacheItem Value PState)
  depth : Nat
  maxDepth : Nat
  deriving DecidableEq

def scanP (p : PParser) : PParser := { p with st := doScan true p.st }

def scanWSP (p : PParser) : PParser := { p with st := doScan false p.st }

def pushErrSt (s : PState) (msg : String) : PState := { s with errors := s.errors ++ [msg] }

def pushErrP (msg : String) (p : PParser) : PParser := { p with st := pushErrSt p.st msg }

/-- `p.illegal(note)`: "illegal token" for the Illegal token, otherwise
"unexpected <tok> token|keyword[: note]"; pending hints are always empty in
the embedded fragments. -/
def illegalP (note : String) (p : PParser) : PParser :=
  if p.st.tok = .illegal then pushErrP "illegal token" p
  else
    let kind := if tokIsKeyword p.st.tok then "keyword" else "token"
    if note = "" then
      pushErrP ("unexpected " ++ tokStr p.st.tok ++ " " ++ kind) p
    else
      pushErrP ("unexpected " ++ tokStr p.st.tok ++ " " ++ kind ++ ": " ++ note) p

/-- `ErrMaxParsingRecursionDepthExceeded`. -/
def maxRecursionMsg : String := "max parsing recursion depth exceeded"

/-- `enter`:
```
p.recursionDepth++
if p.maxRecursionDepth > 0 && p.recursionDepth > p.maxRecursionDepth {
    p.error(p.s.Loc(), ErrMaxParsingRecursionDepthExceeded.Error())
    p.recursionDepth--
    return false
}
return true
``` -/
def enterF (p : PParser) : Bool × PParser :=
  let p1 : PParser := { p with depth := p.depth + 1 }
  if 0 < p1.maxDepth ∧ p1.maxDepth < p1.depth then
    (false, { p1 with st := pushErrSt p1.st maxRecursionMsg, depth := p1.depth - 1 })
  else (true, p1)

/-- `leave`: decrement the recursion depth counter. -/
def leaveF (p : PParser) : PParser := { p with depth := p.depth - 1 }

/-- `genwildcard`: return the name for the current counter value, increment. -/
def genwildcardP (p : PParser) : String × PParser :=
  (wildcardName p.st.wildcard, { p with st := { p.st with wildcard := p.st.wildcard + 1 } })

/-- `parseVar`: build a Var from the literal; a wildcard `_` gets a fresh
generated name (`term.Equal(Wildcard)` is exactly `lit == "_"`). -/
def parseVarF (p : PParser) : Value × PParser :=
  if p.st.lit = "_" then
    let (w, p1) := genwildcardP p
    (Value.var_ w, p1)
  else (Value.var_ p.st.lit, p)

/-! ## Number literals (`parseNumber`) -/

def isDigitC (c : Char) : Bool := decide (48 ≤ c.toNat) && decide (c.toNat ≤ 57)

def spanDigits : List Char → List Char × List Char
  | [] => ([], [])
  | c :: cs =>
    if isDigitC c then
      let (d, r) := spanDigits cs
      (c :: d, r)
    else ([], c :: cs)

def decExpPart (cs : List Char) : Option Int :=
  let (negE, cs1) :=
    match cs with
    | '-' :: r => (true, r)
    | '+' :: r => (false, r)
    | r => (false, r)
  let (ds, rest) := spanDigits cs1
  if ds = [] ∨ rest ≠ [] then none
  else some (if negE then -(decDigits 0 ds : Int) else (decDigits 0 ds : Int))

def decFinish (neg : Bool) (ip fp rest : List Char) : Option (Bool × Nat × Int) :=
  if ip = [] ∧ fp = [] then none
  else
    let m := decDigits 0 (ip ++ fp)
    let dshift : Int := -(fp.length : Int)
    match rest with
    | [] => some (neg, m, dshift)
    | 'e' :: r => (decExpPart r).map fun e => (neg, m, dshift + e)
    | 'E' :: r => (decExpPart r).map fun e => (neg, m, dshift + e)
    | _ => none

/-- Model of `big.Float.SetString` on the decimal strings the parser feeds it
(`prefix + lit`): optional sign, integer digits, optional `.` fraction,
optional decimal exponent; at least one mantissa digit.  Returns the sign,
the mantissa digits as a natural number `m`, and the decimal exponent `d`,
so that the exact value is `± m · 10^d`.  (`big.Float` rounds the mantissa to
its 64-bit precision; the claims only concern the exponent, which rounding
leaves untouched except exactly at powers of two.) -/
def decParse (s : String) : Option (Bool × Nat × Int) :=
  let (neg, cs) :=
    match s.data with
    | '-' :: r => (true, r)
    | '+' :: r => (false, r)
    | r => (false, r)
  let (ip, cs1) := spanDigits cs
  match cs1 with
  | '.' :: r =>
    let (fp, rest) := spanDigits r
    decFinish neg ip fp rest
  | _ => decFinish neg ip [] cs1

/-- The source guards against huge numbers with
```
exp := f.MantExp(nil)
if exp > 1e5 || exp < -1e5 || f.IsInf() { p.error(..., "number too big") }
```
where `exp` is the binary exponent (`x = mant · 2^exp`, `0.5 ≤ |mant| < 1`,
`exp = 0` for `0`).  In exact arithmetic, for `x ≠ 0`:
`exp > 1e5 ⟺ |x| ≥ 2^100000` and `exp < -1e5 ⟺ |x| < 2^(-100001)`; `IsInf`
only arises from exponents far beyond the bound and is subsumed.  This
executable check uses the cross-multiplied comparisons, writing the powers of
two as shifts (`Nat.shiftLeft 1 k = 2^k`); `numberTooBig_iff` below proves it
equal to the `Int.log`-phrased exponent bound. -/
def numberTooBig (m : Nat) (d : Int) : Bool :=
  if m = 0 then false
  else
    let dp := d.toNat
    let dn := (-d).toNat
    decide (Nat.shiftLeft 1 100000 * 10 ^ dn ≤ m * 10 ^ dp)
      || decide (m * 10 ^ dp * Nat.shiftLeft 1 100001 < 10 ^ dn)

/-- The leading-zero validation of `parseNumber`:
```
hasDecimalPrefix := len(prefix) > 0 && prefix[len(prefix)-1] == '.'
if !hasDecimalPrefix && len(p.s.lit) > 1 && p.s.lit[0] == '0' {
    isDecimal := p.s.lit[1] == '.'
    isScientific := len(p.s.lit) > 2 && (p.s.lit[1] == 'e' || p.s.lit[1] == 'E')
    if !isDecimal && !isScientific { ... "expected number without leading zero" }
}
``` -/
def leadingZeroBad (pre lit : String) : Bool :=
  let hasDecimalPrefix : Bool :=
    match pre.data.getLast? with
    | some c => decide (c = '.')
    | none => false
  if hasDecimalPrefix then false
  else
    match lit.data with
    | '0' :: c1 :: restc =>
      let isDecimal := c1 = '.'
      let isScientific := decide (restc ≠ []) && (c1 = 'e' || c1 = 'E')
      !(isDecimal || isScientific)
    | _ => false

/-- `parseNumber`'s negative-sign phase. -/
def parseNumSign (p : PParser) : Option String × PParser :=
  if p.st.tok = .sub then
    let p1 := scanP p
    match p1.st.tok with
    | .number => (some "-", p1)
    | .dot => (some "-", p1)
    | _ => (none, illegalP "expected number" p1)
  else (some "", p)

/-- `parseNumber`'s leading-decimal-point phase. -/
def parseNumDot (pre : String) (p : PParser) : Option String × PParser :=
  if p.st.tok = .dot then
    let p1 := scanP p
    if p1.st.tok = .number then (some (pre ++ "."), p1)
    else (none, illegalP "expected number" p1)
  else (some pre, p)

/-- `parseNumber`: sign and dot prefixes, leading-zero validation, value
parse, exponent bound; an accepted literal keeps the original decimal string
(`NumberTerm(json.Number(s))`, no float round-trip). -/
def parseNumberF (p : PParser) : Option Value × PParser :=
  match parseNumSign p with
  | (none, p1) => (none, p1)
  | (some pre, p1) =>
    match parseNumDot pre p1 with
    | (none, p2) => (none, p2)
    | (some pre2, p2) =>
      if leadingZeroBad pre2 p2.st.lit then
        (none, illegalP "expected number without leading zero" p2)
      else
        let s := pre2 ++ p2.st.lit
        match decParse s with
        | none => (none, illegalP "invalid float" p2)
        | some (_, m, d) =>
          if numberTooBig m d then (none, pushErrP "number too big" p2)
          else (some (Value.num s), p2)

/-! ## The precedence-tiered term engine

`parseTermInfixCall → parseTermIn → parseTermRelation → parseTermOr →
parseTermAnd → parseTermArith → parseTermFactor → parseTerm`, plus
`parseTermFinish / parseRef / parseCall / parseTermList`.  Each function
brackets its body with `enter`/`leave` exactly where the source does
(`parseTermList` and `parseTermFinish` have no guard in the source).  The Go
recursion is driven by input consumption; the Lean image adds a `fuel`
parameter for termination, with `fuel = 0` meaning "out of fuel" — all
concrete runs below use ample fuel.

`scanAheadRef` and `isAllowedRefKeyword` are constantly-false no-ops over
this token alphabet: they require the `keywords_in_refs` capability and a
keyword token, and none of the embedded tokens is a keyword that can head a
ref.  Location/text bookkeeping (`setLoc`, `Location.Text`) is elided. -/

/-- `Member.Ref()` (`internal.member_2`, from the builtins table outside the
embedded file). -/
def memberRefV : Value := .ref (vlist [.var_ "internal", .str "member_2"])

/-- `MemberWithKey.Ref()` (`internal.member_3`). -/
def memberWithKeyRefV : Value := .ref (vlist [.var_ "internal", .str "member_3"])

/-- `parseTermOp`: if the current token is one of `values`, build a Ref-of-Var
operator term named after the token and scan past it. -/
def parseTermOpF (values : List Tok) (p : PParser) : Option Value × PParser :=
  if p.st.tok ∈ values then
    (some (Value.ref (vlist [Value.var_ (tokStr p.st.tok)])), scanP p)
  else (none, p)

/-- `parseTermOpName`: like `parseTermOp` but with a fixed builtin ref. -/
def parseTermOpNameF (r : Value) (values : List Tok) (p : PParser) :
    Option Value × PParser :=
  if p.st.tok ∈ values then (some r, scanP p) else (none, p)

/-- The default arm of `parseTermFinish`: a Var that is a root document name
(`RootDocumentNames` = {input, data}, from `ast/policy.go` outside the
embedded file) becomes a one-element Ref. -/
def termFinishDefault (head : Value) : Value :=
  match head with
  | .var_ v => if v = "input" ∨ v = "data" then Value.ref (vlist [Value.var_ v]) else Value.var_ v
  | h => h

set_option maxHeartbeats 2000000 in

mutual

/-- `parseTermInfixCall`. -/
def parseTermInfixCallF : Nat → PParser → Option Value × PParser
  | 0, p => (none, p)
  | fuel + 1, p =>
    match enterF p with
    | (false, p1) => (none, p1)
    | (true, p1) =>
      let (r, p2) := parseTermInF fuel none true p1.st.offset p1
      (r, leaveF p2)

termination_by structural fuel _ => fuel

/-- `parseTermInfixCallInList` (no `key, val in domain` form). -/
def parseTermInfixCallInListF : Nat → PParser → Option Value × PParser
  | 0, p => (none, p)
  | fuel + 1, p =>
    match enterF p with
    | (false, p1) => (none, p1)
    | (true, p1) =>
      let (r, p2) := parseTermInF fuel none false p1.st.offset p1
      (r, leaveF p2)

termination_by structural fuel _ => fuel

/-- `parseTermIn` (enter/leave bracket; body split off below). -/
def parseTermInF : Nat → Option Value → Bool → Nat → PParser → Option Value × PParser
  | 0, _, _, _, p => (none, p)
  | fuel + 1, lhs0, keyVal, offset, p =>
    match enterF p with
    | (false, p1) => (none, p1)
    | (true, p1) =>
      let (r, p2) := parseTermInBodyF fuel lhs0 keyVal offset p1
      (r, leaveF p2)

termination_by structural fuel _ _ _ _ => fuel

/-- Body of `parseTermIn`: parse (or adopt) the lhs; try the speculative
`key, val in domain` form, restoring the saved state when it fails;
otherwise the plain `lhs in rhs` tail. -/
def parseTermInBodyF : Nat → Option Value → Bool → Nat → PParser → Option Value × PParser
  | 0, _, _, _, p => (none, p)
  | fuel + 1, lhs0, keyVal, offset, p =>
    let (lhs, p1) :=
      match lhs0 with
      | none => parseTermRelationF fuel none offset p
      | some l => (some l, p)
    match lhs with
    | none => (none, p1)
    | some lhs =>
      if keyVal ∧ p1.st.tok = .comma then
        let s := p1.st
        let p2 := scanP p1
        match parseTermRelationF fuel none offset p2 with
        | (some mhs, p3) =>
          match parseTermOpNameF memberWithKeyRefV [.in_] p3 with
          | (some op, p4) =>
            match parseTermRelationF fuel none p4.st.offset p4 with
            | (some rhs, p5) =>
              let c := Value.call (vlist [op, lhs, mhs, rhs])
              if p5.st.tok = .in_ then parseTermInF fuel (some c) keyVal offset p5
              else (some c, p5)
            | (none, p5) => parseTermInTailF fuel lhs keyVal offset { p5 with st := s }
          | (none, p4) => parseTermInTailF fuel lhs keyVal offset { p4 with st := s }
        | (none, p3) => parseTermInTailF fuel lhs keyVal offset { p3 with st := s }
      else parseTermInTailF fuel lhs keyVal offset p1

termination_by structural fuel _ _ _ _ => fuel

/-- Tail of `parseTermIn`: the plain `lhs in rhs` member form, else `lhs`. -/
def parseTermInTailF : Nat → Value → Bool → Nat → PParser → Option Value × PParser
  | 0, _, _, _, p => (none, p)
  | fuel + 1, lhs, keyVal, offset, p =>
    match parseTermOpNameF memberRefV [.in_] p with
    | (some op, p1) =>
      match parseTermRelationF fuel none p1.st.offset p1 with
      | (some rhs, p2) =>
        let c := Value.call (vlist [op, lhs, rhs])
        if p2.st.tok = .in_ then parseTermInF fuel (some c) keyVal offset p2
        else (some c, p2)
      | (none, p2) => (some lhs, p2)
    | (none, p1) => (some lhs, p1)

termination_by structural fuel _ _ _ _ => fuel

/-- `parseTermRelation`. -/
def parseTermRelationF : Nat → Option Value → Nat → PParser → Option Value × PParser
  | 0, _, _, p => (none, p)
  | fuel + 1, lhs0, offset, p =>
    match enterF p with
    | (false, p1) => (none, p1)
    | (true, p1) =>
      let (r, p2) := parseTermRelationBodyF fuel lhs0 offset p1
      (r, leaveF p2)

termination_by structural fuel _ _ _ => fuel

def parseTermRelationBodyF : Nat → Option Value → Nat → PParser → Option Value × PParser
  | 0, _, _, p => (none, p)
  | fuel + 1, lhs0, offset, p =>
    let (lhs, p1) :=
      match lhs0 with
      | none => parseTermOrF fuel none offset p
      | some l => (some l, p)
    match lhs with
    | none => (none, p1)
    | some lhs =>
      match parseTermOpF [.equal, .neq, .lt, .gt, .lte, .gte] p1 with
      | (some op, p2) =>
        match parseTermOrF fuel none p2.st.offset p2 with
        | (some rhs, p3) =>
          let c := Value.call (vlist [op, lhs, rhs])
          match p3.st.tok with
          | .equal | .neq | .lt | .gt | .lte | .gte =>
            parseTermRelationF fuel (some c) offset p3
          | _ => (some c, p3)
        | (none, p3) => (some lhs, p3)
      | (none, p2) => (some lhs, p2)

termination_by structural fuel _ _ _ => fuel

/-- `parseTermOr`. -/
def parseTermOrF : Nat → Option Value → Nat → PParser → Option Value × PParser
  | 0, _, _, p => (none, p)
  | fuel + 1, lhs0, offset, p =>
    match enterF p with
    | (false, p1) => (none, p1)
    | (true, p1) =>
      let (r, p2) := parseTermOrBodyF fuel lhs0 offset p1
      (r, leaveF p2)

termination_by structural fuel _ _ _ => fuel

def parseTermOrBodyF : Nat → Option Value → Nat → PParser → Option Value × PParser
  | 0, _, _, p => (none, p)
  | fuel + 1, lhs0, offset, p =>
    let (lhs, p1) :=
      match lhs0 with
      | none => parseTermAndF fuel none offset p
      | some l => (some l, p)
    match lhs with
    | none => (none, p1)
    | some lhs =>
      match parseTermOpF [.or_] p1 with
      | (some op, p2) =>
        match parseTermAndF fuel none p2.st.offset p2 with
        | (some rhs, p3) =>
          let c := Value.call (vlist [op, lhs, rhs])
          match p3.st.tok with
          | .or_ => parseTermOrF fuel (some c) offset p3
          | _ => (some c, p3)
        | (none, p3) => (some lhs, p3)
      | (none, p2) => (some lhs, p2)

termination_by structural fuel _ _ _ => fuel

/-- `parseTermAnd`. -/
def parseTermAndF : Nat → Option Value → Nat → PParser → Option Value × PParser
  | 0, _, _, p => (none, p)
  | fuel + 1, lhs0, offset, p =>
    match enterF p with
    | (false, p1) => (none, p1)
    | (true, p1) =>
      let (r, p2) := parseTermAndBodyF fuel lhs0 offset p1
      (r, leaveF p2)

termination_by structural fuel _ _ _ => fuel

def parseTermAndBodyF : Nat → Option Value → Nat → PParser → Option Value × PParser
  | 0, _, _, p => (none, p)
  | fuel + 1, lhs0, offset, p =>
    let (lhs, p1) :=
      match lhs0 with
      | none => parseTermArithF fuel none offset p
      | some l => (some l, p)
    match lhs with
    | none => (none, p1)
    | some lhs =>
      match parseTermOpF [.and_] p1 with
      | (some op, p2) =>
        match parseTermArithF fuel none p2.st.offset p2 with
        | (some rhs, p3) =>
          let c := Value.call (vlist [op, lhs, rhs])
          match p3.st.tok with
          | .and_ => parseTermAndF fuel (some c) offset p3
          | _ => (some c, p3)
        | (none, p3) => (some lhs, p3)
      | (none, p2) => (some lhs, p2)

termination_by structural fuel _ _ _ => fuel

/-- `parseTermArith`. -/
def parseTermArithF : Nat → Option Value → Nat → PParser → Option Value × PParser
  | 0, _, _, p => (none, p)
  | fuel + 1, lhs0, offset, p =>
    match enterF p with
    | (false, p1) => (none, p1)
    | (true, p1) =>
      let (r, p2) := parseTermArithBodyF fuel lhs0 offset p1
      (r, leaveF p2)

termination_by structural fuel _ _ _ => fuel

def parseTermArithBodyF : Nat → Option Value → Nat → PParser → Option Value × PParser
  | 0, _, _, p => (none, p)
  | fuel + 1, lhs0, offset, p =>
    let (lhs, p1) :=
      match lhs0 with
      | none => parseTermFactorF fuel none offset p
      | some l => (some l, p)
    match lhs with
    | none => (none, p1)
    | some lhs =>
      match parseTermOpF [.add, .sub] p1 with
      | (some op, p2) =>
        match parseTermFactorF fuel none p2.st.offset p2 with
        | (some rhs, p3) =>
          let c := Value.call (vlist [op, lhs, rhs])
          match p3.st.tok with
          | .add | .sub => parseTermArithF fuel (some c) offset p3
          | _ => (some c, p3)
        | (none, p3) => (some lhs, p3)
      | (none, p2) => (some lhs, p2)

termination_by structural fuel _ _ _ => fuel

/-- `parseTermFactor`. -/
def parseTermFactorF : Nat → Option Value → Nat → PParser → Option Value × PParser
  | 0, _, _, p => (none, p)
  | fuel + 1, lhs0, offset, p =>
    match enterF p with
    | (false, p1) => (none, p1)
    | (true, p1) =>
      let (r, p2) := parseTermFactorBodyF fuel lhs0 offset p1
      (r, leaveF p2)

termination_by structural fuel _ _ _ => fuel

def parseTermFactorBodyF : Nat → Option Value → Nat → PParser → Option Value × PParser
  | 0, _, _, p => (none, p)
  | fuel + 1, lhs0, offset, p =>
    let (lhs, p1) :=
      match lhs0 with
      | none => parseTermF fuel p
      | some l => (some l, p)
    match lhs with
    | none => (none, p1)
    | some lhs =>
      match parseTermOpF [.mul, .quo, .rem] p1 with
      | (some op, p2) =>
        match parseTermF fuel p2 with
        | (some rhs, p3) =>
          let c := Value.call (vlist [op, lhs, rhs])
          match p3.st.tok with
          | .mul | .quo | .rem => parseTermFactorF fuel (some c) offset p3
          | _ => (some c, p3)
        | (none, p3) => (some lhs, p3)
      | (none, p2) => (some lhs, p2)

termination_by structural fuel _ _ _ => fuel

/-- `parseTerm`: recursion guard, cache lookup (a hit restores the cached
post-state), the primary-term switch, `parseTermFinish`, cache push. -/
def parseTermF : Nat → PParser → Option Value × PParser
  | 0, p => (none, p)
  | fuel + 1, p =>
    match enterF p with
    | (false, p1) => (none, p1)
    | (true, p1) =>
      match parsedTermCacheLookup p1.st.offset p1.cache with
      | some (term, post) => (term, leaveF { p1 with st := post })
      | none =>
        let s0 := p1.st
        let (t0, p2) := parseTermSwitchF fuel p1
        let (t1, p3) := parseTermFinishF fuel t0 false p2
        let p4 : PParser :=
          { p3 with cache := parsedTermCachePush t1 s0.offset p3.st p3.cache }
        (t1, leaveF p4)

termination_by structural fuel _ => fuel

/-- The primary-term switch of `parseTerm`, over this token alphabet (the
String/LBrack/LBrace arms concern tokens outside it; `tokens.Contains` is
handled like Ident by the source). -/
def parseTermSwitchF : Nat → PParser → Option Value × PParser
  | 0, p => (none, p)
  | fuel + 1, p =>
    match p.st.tok with
    | .null => (some Value.null, p)
    | .true_ => (some (Value.bool true), p)
    | .false_ => (some (Value.bool false), p)
    | .sub => parseNumberF p
    | .dot => parseNumberF p
    | .number => parseNumberF p
    | .ident =>
      let (v, p1) := parseVarF p
      (some v, p1)
    | .lparen =>
      let p1 := scanP p
      match parseTermInfixCallF fuel p1 with
      | (some r, p2) =>
        if p2.st.tok = .rparen then (some r, p2)
        else (none, pushErrP "non-terminated expression" p2)
      | (none, p2) => (none, p2)
    | _ => (none, illegalP "" p)

termination_by structural fuel _ => fuel

/-- `parseTermFinish`: scan past the head (keeping or skipping whitespace),
continue into a ref/call, or close the term (root-document Vars become
Refs). -/
def parseTermFinishF : Nat → Option Value → Bool → PParser → Option Value × PParser
  | 0, _, _, p => (none, p)
  | fuel + 1, head0, skipws, p =>
    match head0 with
    | none => (none, p)
    | some head =>
      let offset := p.st.offset
      let p1 : PParser := { p with st := doScan skipws p.st }
      match p1.st.tok with
      | .lparen => parseRefF fuel head offset p1
      | .dot => parseRefF fuel head offset p1
      | .lbrack => parseRefF fuel head offset p1
      | .whitespace => (some (termFinishDefault head), scanP p1)
      | _ => (some (termFinishDefault head), p1)

termination_by structural fuel _ _ _ => fuel

/-- `parseRef`: head-kind check (an error is recorded but parsing continues),
then the dot/bracket/call loop. -/
def parseRefF : Nat → Value → Nat → PParser → Option Value × PParser
  | 0, _, _, p => (none, p)
  | fuel + 1, head, offset, p =>
    match enterF p with
    | (false, p1) => (none, p1)
    | (true, p1) =>
      let p2 :=
        match head with
        | .var_ _ => p1
        | .call _ => p1
        | .set _ => p1
        | _ => pushErrP ("illegal ref (head cannot be " ++ valueName head ++ ")") p1
      let (r, p3) := parseRefLoopF fuel [head] offset p2
      (r, leaveF p3)

termination_by structural fuel _ _ _ => fuel

/-- The `for` loop of `parseRef`. -/
def parseRefLoopF : Nat → List Value → Nat → PParser → Option Value × PParser
  | 0, _, _, p => (none, p)
  | fuel + 1, ref, offset, p =>
    match p.st.tok with
    | .dot =>
      let p1 := scanWSP p
      if p1.st.tok = .ident then
        parseRefLoopF fuel (ref ++ [Value.str p1.st.lit]) offset (scanWSP p1)
      else (none, illegalP "expected ident" p1)
    | .lparen =>
      match parseCallF fuel (Value.ref (vlist ref)) offset p with
      | (some term, p1) =>
        match p1.st.tok with
        | .whitespace => (some term, scanP p1)
        | .dot => parseRefF fuel term offset p1
        | .lbrack => parseRefF fuel term offset p1
        | _ => (some term, p1)
      | (none, p1) => (none, p1)
    | .lbrack =>
      let p1 := scanP p
      match parseTermInfixCallF fuel p1 with
      | (some t, p2) =>
        if p2.st.tok = .rbrack then parseRefLoopF fuel (ref ++ [t]) offset (scanWSP p2)
        else (none, illegalP "expected [" p2)
      | (none, p2) => (none, p2)
    | .whitespace => (some (Value.ref (vlist ref)), scanP p)
    | _ => (some (Value.ref (vlist ref)), p)

termination_by structural fuel _ _ _ => fuel

/-- `parseCall`: step over `(`, empty-argument case (`set()` builds a Set,
`setConstructor` being `RefTerm(VarTerm("set"))` from the builtins table),
else an argument list. -/
def parseCallF : Nat → Value → Nat → PParser → Option Value × PParser
  | 0, _, _, p => (none, p)
  | fuel + 1, operator, _offset, p =>
    match enterF p with
    | (false, p1) => (none, p1)
    | (true, p1) =>
      let p2 := scanP p1
      if p2.st.tok = .rparen then
        let p3 := scanWSP p2
        match operator with
        | .ref (.cons (.var_ "set") .nil) => (some (Value.set .nil), leaveF p3)
        | _ => (some (Value.call (vlist [operator])), leaveF p3)
      else
        match parseTermListF fuel .rparen [operator] p2 with
        | (some r, p3) => (some (Value.call (vlist r)), leaveF (scanWSP p3))
        | (none, p3) => (none, leaveF p3)

termination_by structural fuel _ _ _ => fuel

/-- `parseTermList` (no recursion guard in the source). -/
def parseTermListF : Nat → Tok → List Value → PParser → Option (List Value) × PParser
  | 0, _, _, p => (none, p)
  | fuel + 1, endT, r, p =>
    if p.st.tok = endT then (some r, p)
    else
      match parseTermInfixCallInListF fuel p with
      | (some term, p1) =>
        let r1 := r ++ [term]
        if p1.st.tok = endT then (some r1, p1)
        else if p1.st.tok = .comma then
          let p2 := scanP p1
          if p2.st.tok = endT then (some r1, p2)
          else parseTermListF fuel endT r1 p2
        else
          (none, illegalP ("expected \x22" ++ tokStr .comma ++ "\x22 or \x22"
            ++ tokStr endT ++ "\x22") p1)
      | (none, p1) => (none, p1)

termination_by structural fuel _ _ _ => fuel

end

/-- A fresh parser over a pre-lexed stream: zero state (the Go zero token is
Illegal), then the initializing `p.scan()` of `Parse`. -/
def initParser (entries : List TokEntry) (maxDepth : Nat) : PParser :=
  { st := doScan true
      { rest := entries, tok := .illegal, lit := "", offset := 0, tokEnd := 0,
        lastEnd := 0, errors := [], wildcard := 0 },
    cache := [], depth := 0, maxDepth := maxDepth }

/-- The token stream of `((((((1))))))`. -/
def toksParen6 : List TokEntry :=
  [⟨.lparen, "(", 0, 1⟩, ⟨.lparen, "(", 1, 2⟩, ⟨.lparen, "(", 2, 3⟩,
   ⟨.lparen, "(", 3, 4⟩, ⟨.lparen, "(", 4, 5⟩, ⟨.lparen, "(", 5, 6⟩,
   ⟨.number, "1", 6, 7⟩,
   ⟨.rparen, ")", 7, 8⟩, ⟨.rparen, ")", 8, 9⟩, ⟨.rparen, ")", 9, 10⟩,
   ⟨.rparen, ")", 10, 11⟩, ⟨.rparen, ")", 11, 12⟩, ⟨.rparen, ")", 12, 13⟩]

/-- The token stream of `f(_, _)`. -/
def toksWild : List TokEntry :=
  [⟨.ident, "f", 0, 1⟩, ⟨.lparen, "(", 1, 2⟩, ⟨.ident, "_", 2, 3⟩,
   ⟨.comma, ",", 3, 4⟩, ⟨.whitespace, " ", 4, 5⟩, ⟨.ident, "_", 5, 6⟩,
   ⟨.rparen, ")", 6, 7⟩]

/-! ## Rule-head normalization (`parseHead` / `parseRules`)

The rule head after `parseHead`, and the legacy `p[x]` / `p[x] if`
desugaring of `parseRules` (lines 824–861), as a state machine over head
shapes.  The `hasIf` / `usesContains` flags stand for
`p.s.tok == tokens.If` after the head (line 825) and the second return of
`parseHead`. -/

/-- `ast.Head`: canonical rule-head shape — Name, Reference (the ref), Args,
optional Key, optional Value, the `:=` flag, the generated-value flag and the
keywords used.  Locations elided. -/
structure Head where
  name : Option String
  reference : List Value
  args : List Value
  key : Option Value
  value : Option Value
  assign : Bool
  generatedValue : Bool
  keywords : List Tok
  deriving DecidableEq

/-! `Term.IsGround` (`ast/term.go`, outside the embedded file): a term is
ground iff it contains no variables.  (For Ref values the source ignores the
ref's head element; `parseRules` pairs the groundness test with a separate
`isRef` test, making that difference irrelevant to the embedded decision.) -/

mutual

def isGroundV : Value → Bool
  | .var_ _ => false
  | .ref ts => isGroundVL ts
  | .call ts => isGroundVL ts
  | .set ts => isGroundVL ts
  | _ => true

def isGroundVL : ValueList → Bool
  | .nil => true
  | .cons v vs => isGroundV v && isGroundVL vs

end

/-- `RefHead` (`ast/policy.go`, outside the embedded file).  Modelled from the
spec's canonical head shape: the reference is stored as given; a one-element
ref `[Var v]` also sets Name. -/
def refHead (r : List Value) : Head :=
  { name :=
      match r with
      | [.var_ v] => some v
      | _ => none,
    reference := r, args := [], key := none, value := none,
    assign := false, generatedValue := false, keywords := [] }

/-- The tail of `parseHead` (lines 1131–1136): with no Key and no Value, a
head whose ref is not the two-element `p[x]` shape (or that has Args) gets a
generated `true` Value. -/
def parseHeadDefaultValue (h : Head) : Head :=
  if h.value = none ∧ h.key = none then
    if h.reference.length ≠ 2 ∨ 0 < h.args.length then
      { h with generatedValue := true, value := some (Value.bool true) }
    else h
  else h

/-- Lines 824–861 of `parseRules`: the legacy back-compat desugaring of
`p[x] if` (single-value) and `p[x]` (multi-value) heads.
```
hasIf := p.s.tok == tokens.If
// p[x] if ...  becomes a single-value rule p[x]
if hasIf && !usesContains && len(rule.Head.Ref()) == 2 {
    v := rule.Head.Ref()[1]
    _, isRef := v.Value.(Ref)
    if (!v.IsGround() || isRef) && len(rule.Head.Args) == 0 {
        rule.Head.Key = rule.Head.Ref()[1]
    }
    if rule.Head.Value == nil {
        rule.Head.generatedValue = true
        rule.Head.Value = BooleanTerm(true)...
    } else {
        v, ok := rule.Head.Ref()[0].Value.(Var)
        if !ok { return nil }
        rule.Head.Name = v
    }
}
// p[x]  becomes a multi-value rule p
if !hasIf && !usesContains && len(rule.Head.Args) == 0 && len(rule.Head.Ref()) == 2 {
    v, ok := rule.Head.Ref()[0].Value.(Var)
    if !ok { return nil }
    rule.Head.Name = v
    rule.Head.Key = rule.Head.Ref()[1]
    if rule.Head.Value == nil {
        rule.Head.SetRef(rule.Head.Ref()[:len(rule.Head.Ref())-1])
    }
}
```
`none` is the `return nil` outcome. -/
def normalizeRuleHead (h : Head) (hasIf usesContains : Bool) : Option Head :=
  let step1 : Option Head :=
    if hasIf ∧ ¬usesContains ∧ h.reference.length = 2 then
      match h.reference with
      | [r0, v] =>
        let isRef : Bool :=
          match v with
          | .ref _ => true
          | _ => false
        let h1 :=
          if (¬ (isGroundV v = true) ∨ isRef = true) ∧ h.args.length = 0 then
            { h with key := some v }
          else h
        if h1.value = none then
          some { h1 with generatedValue := true, value := some (Value.bool true) }
        else
          match r0 with
          | .var_ nm => some { h1 with name := some nm }
          | _ => none
      | _ => some h
    else some h
  match step1 with
  | none => none
  | some h2 =>
    if ¬hasIf ∧ ¬usesContains ∧ h2.args.length = 0 ∧ h2.reference.length = 2 then
      match h2.reference with
      | [r0, k] =>
        match r0 with
        | .var_ nm =>
          let h3 := { h2 with name := some nm, key := some k }
          if h3.value = none then
            some { h3 with reference := h3.reference.take (h3.reference.length - 1) }
          else some h3
        | _ => none
      | _ => some h2
    else some h2

/-- The head state reached by `parseHead` on the surface head `p[x]` (no
`contains`, no `=`/`:=`): the ref `[p, x]`, no Key, no Value, no Args, and no
generated value (the ref has exactly two elements). -/
def headPX : Head := parseHeadDefaultValue (refHead [Value.var_ "p", Value.var_ "x"])

/-! ## Keyword / version negotiation (the preamble of `Parse`)

Lines 332–440: resolve the effective Rego version, validate the capabilities
declaration and the requested future keywords, and compute the selected
keyword set handed to the scanner.  Keyword token payloads are elided (the
parser only forwards them to the scanner's keyword table); the keyword sets
are lists of names with membership semantics. -/

/-- `RegoVersion` (`RegoUndefined | RegoV0 | RegoV0CompatV1 | RegoV1`). -/
inductive RegoVersion where
  | undefined
  | v0
  | v0CompatV1
  | v1
  deriving Repr, DecidableEq

/-- `const DefaultRegoVersion = RegoV1`. -/
def DefaultRegoVersion : RegoVersion := .v1

/-- `ParserOptions.EffectiveRegoVersion`:
```
if po.RegoVersion == RegoUndefined { return DefaultRegoVersion }
return po.RegoVersion
``` -/
def effectiveRegoVersion (v : RegoVersion) : RegoVersion :=
  if v = .undefined then DefaultRegoVersion else v

/-- Modelled from the spec: the capabilities declaration names the future
keywords and feature flags a parse may use (`ast.Capabilities` is declared in
`ast/capabilities.go`, outside the embedded file; the parser reads only its
`FutureKeywords` list and `ContainsFeature`). -/
structure Capabilities where
  futureKeywords : List String
  features : List String
  deriving Repr, DecidableEq

def containsFeature (c : Capabilities) (f : String) : Bool := c.features.contains f

/-- `FeatureRegoV1` (`ast/capabilities.go`, outside the embedded file). -/
def FeatureRegoV1 : String := "rego_v1"

/-- The `ParserOptions` fields the preamble of `Parse` reads. -/
structure ParserOptions where
  capabilities : Option Capabilities
  allFutureKeywords : Bool
  futureKeywords : List String
  regoVersion : RegoVersion
  deriving Repr, DecidableEq

/-- `var futureKeywords = map[string]tokens.Token{}` — the v1 future-keyword
table is empty in this version of the source. -/
def futureKeywordsTable : List String := []

/-- `var futureKeywordsV0 = {"in", "every", "contains", "if"}`. -/
def futureKeywordsV0Table : List String := ["in", "every", "contains", "if"]

/-- `allFutureKeywords` as built by `init()`: the union of the two tables. -/
def allFutureKeywordsTable : List String := futureKeywordsTable ++ futureKeywordsV0Table

/-- Modelled from the spec: `CapabilitiesForThisVersion` (used when no
capabilities are supplied) declares every known future keyword and, for an
effective v1 version, the `rego_v1` feature. -/
def capabilitiesForVersion (v : RegoVersion) : Capabilities :=
  { futureKeywords := allFutureKeywordsTable,
    features := if effectiveRegoVersion v = .v1 then [FeatureRegoV1] else [] }

/-- The v1-branch capabilities loop (lines 354–369): keywords found in
`futureKeywords` are added to the allowed set; the rest must at least be
known v0 future keywords. -/
def v1CapsLoop : List String → List String → Except String (List String)
  | [], allowed => .ok allowed
  | kw :: rest, allowed =>
    if futureKeywordsTable.contains kw then v1CapsLoop rest (allowed ++ [kw])
    else if futureKeywordsV0Table.contains kw then v1CapsLoop rest allowed
    else .error ("illegal capabilities: unknown keyword: " ++ kw)

/-- The v1-branch requested-keywords check (lines 372–382): the first
requested keyword outside the allowed set, if any. -/
def requestedLoopV1 : List String → List String → Option String
  | [], _ => none
  | kw :: rest, allowed =>
    if allowed.contains kw then requestedLoopV1 rest allowed else some kw

/-- The non-v1 capabilities loop (lines 384–396): every capabilities keyword
must be a known future keyword; known ones are added to the allowed set. -/
def v0CapsLoop : List String → List String → Except String (List String)
  | [], allowed => .ok allowed
  | kw :: rest, allowed =>
    if allFutureKeywordsTable.contains kw then v0CapsLoop rest (allowed ++ [kw])
    else .error ("illegal capabilities: unknown keyword: " ++ kw)

/-- The keyword-selection loop (lines 420–432): each requested keyword must
be allowed; the first unknown one is a hard error. -/
def selectLoop : List String → List String → List String → Except String (List String)
  | [], _, acc => .ok acc
  | kw :: rest, allowed, acc =>
    if allowed.contains kw then selectLoop rest allowed (acc ++ [kw])
    else .error ("unknown future keyword: " ++ kw)

/-- The outcome of the `Parse` preamble: an immediate hard error (`Parse`
returns `(nil, nil, Errors{...})` with exactly that message), or the selected
keyword set together with the scanner's final keyword set. -/
inductive PrepResult where
  | err (msg : String)
  | ok (selected : List String) (scannerKeywords : List String)
  deriving Repr, DecidableEq

/-- The preamble of `Parse` (lines 332–440), up to the first token scan:
capabilities defaulting, the version-dependent capability and future-keyword
validation, and the keyword-set selection (`scanner.New` I/O errors have no
counterpart over an in-memory token stream). -/
def parsePrepare (po : ParserOptions) : PrepResult :=
  let caps := po.capabilities.getD (capabilitiesForVersion po.regoVersion)
  if effectiveRegoVersion po.regoVersion = .v1 then
    if ¬ (containsFeature caps FeatureRegoV1 = true) then
      .err "illegal capabilities: rego_v1 feature required for parsing v1 Rego"
    else
      match v1CapsLoop caps.futureKeywords futureKeywordsV0Table with
      | .error m => .err m
      | .ok allowed =>
        match requestedLoopV1 po.futureKeywords allowed with
        | some kw => .err ("unknown future keyword: " ++ kw)
        | none =>
          -- selected := allowed (AllFutureKeywords || RegoV1), and the
          -- AddKeyword loop re-adds every allowed keyword to the scanner
          .ok allowed allowed
  else
    match v0CapsLoop caps.futureKeywords [] with
    | .error m => .err m
    | .ok allowedCaps =>
      let allowed :=
        if containsFeature caps FeatureRegoV1 then allowedCaps ++ futureKeywordsV0Table
        else allowedCaps
      if po.allFutureKeywords then .ok allowed allowed
      else
        match selectLoop po.futureKeywords allowed [] with
        | .error m => .err m
        | .ok selected => .ok selected selected

/-- A one-wildcard parser input, for the C4 witness. -/
def wpWild : PParser := initParser [⟨.ident, "_", 0, 1⟩] 0

lemma cache_dropWhile_suffix {T S : Type} (o0 : Nat) (c : List (CacheItem T S)) :
    List.IsSuffix (c.dropWhile (fun e => decide (o0 ≤ e.offset))) c :=
  List.dropWhile_suffix _

lemma cache_dropWhile_head_lt {T S : Type} (o0 : Nat) (c : List (CacheItem T S)) :
    ∀ h ∈ (c.dropWhile (fun e => decide (o0 ≤ e.offset))).head?, h.offset < o0 := by
  induction c with
  | nil => simp [List.dropWhile]
  | cons a c ih =>
    intro h hh
    by_cases hle : o0 ≤ a.offset
    · rw [List.dropWhile_cons_of_pos (by simpa using hle)] at hh
      exact ih h hh
    · rw [List.dropWhile_cons_of_neg (by simpa using hle)] at hh
      simp only [List.head?_cons, Option.mem_def, Option.some.injEq] at hh
      subst hh
      omega

lemma cache_ordered_push {T S : Type} (t : Option T) (o0 : Nat) (s1 : S)
    (c : List (CacheItem T S)) (hc : CacheOrdered c) :
    CacheOrdered (parsedTermCachePush t o0 s1 c) := by
  unfold parsedTermCachePush CacheOrdered
  rw [List.chain'_cons']
  refine ⟨?_, hc.suffix (cache_dropWhile_suffix o0 c)⟩
  intro b hb
  exact cache_dropWhile_head_lt o0 c b hb

lemma cache_lookup_mem {T S : Type} (l : Nat) (c : List (CacheItem T S))
    (t : Option T) (s : S) (h : parsedTermCacheLookup l c = some (t, s)) :
    (⟨t, s, l⟩ : CacheItem T S) ∈ c := by
  induction c with
  | nil => simp [parsedTermCacheLookup] at h
  | cons a c ih =>
    unfold parsedTermCacheLookup at h
    by_cases hle : l ≤ a.offset
    · rw [if_pos hle] at h
      by_cases heq : a.offset = l
      · rw [if_pos heq] at h
        simp only [Option.some.injEq, Prod.mk.injEq] at h
        obtain ⟨rfl, rfl⟩ := h
        have ha : (⟨a.t, a.post, l⟩ : CacheItem T S) = a := by
          cases a
          simp_all
        rw [ha]
        exact List.mem_cons_self a c
      · rw [if_neg heq] at h
        exact List.mem_cons_of_mem a (ih h)
    · rw [if_neg hle] at h
      exact absurd h (by simp)

/-- C5, part of the claim theorem: the push shape (new head, tail = first
suffix headed by a smaller offset), the ordering invariant, exact-match
lookup hits, and the miss-as-soon-as-smaller behaviour. -/
theorem C5_term_cache {T S : Type} (t : Option T) (o0 : Nat) (s1 : S)
    (c : List (CacheItem T S)) (l : Nat) (hc : CacheOrdered c) :
    (parsedTermCachePush t o0 s1 c =
        ⟨t, s1, o0⟩ :: c.dropWhile (fun e => decide (o0 ≤ e.offset)) ∧
      List.IsSuffix (c.dropWhile (fun e => decide (o0 ≤ e.offset))) c ∧
      (∀ h ∈ (c.dropWhile (fun e => decide (o0 ≤ e.offset))).head?, h.offset < o0)) ∧
    CacheOrdered (parsedTermCachePush t o0 s1 c) ∧
    (∀ t' s', parsedTermCacheLookup l c = some (t', s') →
      (⟨t', s', l⟩ : CacheItem T S) ∈ c) ∧
    (∀ (h : CacheItem T S) (rest : List (CacheItem T S)),
      h.offset < l → parsedTermCacheLookup l (h :: rest) = none) := by
  refine ⟨⟨rfl, cache_dropWhile_suffix o0 c, cache_dropWhile_head_lt o0 c⟩,
    cache_ordered_push t o0 s1 c hc, ?_, ?_⟩
  · intro t' s' h
    exact cache_lookup_mem l c t' s' h
  · intro h rest hlt
    unfold parsedTermCacheLookup
    rw [if_neg (by omega)]

/-- C5 witness: a concrete run of push and lookup on a two-entry cache. -/
theorem C5_term_cache_witness :
    CacheOrdered ([⟨some 7, 10, 5⟩, ⟨none, 3, 2⟩] : List (CacheItem Nat Nat)) ∧
    (parsedTermCachePush (some 9) 6 11 [⟨some 7, 10, 5⟩, ⟨none, 3, 2⟩] =
      [⟨some 9, 11, 6⟩, ⟨some 7, 10, 5⟩, ⟨none, 3, 2⟩] ∧
     CacheOrdered (parsedTermCachePush (some (9 : Nat)) 6 (11 : Nat)
       [⟨some 7, 10, 5⟩, ⟨none, 3, 2⟩])) := by
  have hord : CacheOrdered ([⟨some 7, 10, 5⟩, ⟨none, 3, 2⟩] : List (CacheItem Nat Nat)) := by
    unfold CacheOrdered
    simp [List.chain'_cons]
  have h := C5_term_cache (some 9) 6 11 ([⟨some 7, 10, 5⟩, ⟨none, 3, 2⟩] : List (CacheItem Nat Nat))
    5 hord
  exact ⟨hord, by decide, h.2.1⟩

/-- C3: the statement alternatives are tried in the order package → import →
rule → query, each on the saved snapshot `s`; an alternative that fails with
at least one recorded error makes the loop break at once — the result is
fully determined by the failing alternative, independently of all later
alternatives (they are universally quantified here, so they cannot have been
invoked); a silently failing query breaks as well, and a break ends the loop
immediately. -/
theorem C3_statement_dispatch {π Stmt : Type}
    (pkgF impF : LoopState π → Option Stmt × LoopState π)
    (ruleF : LoopState π → Option (List Stmt) × LoopState π)
    (qryF : LoopState π → Option Stmt × LoopState π)
    (s s' : LoopState π) (fuel : Nat) (stmts : List Stmt) :
    (∀ s1, pkgF s = (none, s1) → s1.errors ≠ [] →
      parseStep pkgF impF ruleF qryF false s = .brk s1) ∧
    (∀ s1 s2, pkgF s = (none, s1) → s1.errors = [] →
      impF s = (none, s2) → s2.errors ≠ [] →
      parseStep pkgF impF ruleF qryF false s = .brk s2) ∧
    (∀ s1 s2 s3, pkgF s = (none, s1) → s1.errors = [] →
      impF s = (none, s2) → s2.errors = [] →
      ruleF s = (none, s3) → s3.errors ≠ [] →
      parseStep pkgF impF ruleF qryF false s = .brk s3) ∧
    (∀ s1 s2 s3 s4, pkgF s = (none, s1) → s1.errors = [] →
      impF s = (none, s2) → s2.errors = [] →
      ruleF s = (none, s3) → s3.errors = [] →
      qryF s = (none, s4) →
      parseStep pkgF impF ruleF qryF false s = .brk s4) ∧
    (s.atEOF = false →
      parseStep pkgF impF ruleF qryF false s = .brk s' →
      parseLoop pkgF impF ruleF qryF false (fuel + 1) stmts s = (stmts, s')) := by
  refine ⟨?_, ?_, ?_, ?_, ?_⟩
  · intro s1 hpkg herr
    simp [parseStep, hpkg, herr]
  · intro s1 s2 hpkg herr1 himp herr2
    simp [parseStep, hpkg, herr1, himp, herr2]
  · intro s1 s2 s3 hpkg herr1 himp herr2 hrule herr3
    simp [parseStep, hpkg, herr1, himp, herr2, hrule, herr3]
  · intro s1 s2 s3 s4 hpkg herr1 himp herr2 hrule herr3 hqry
    simp [parseStep, hpkg, herr1, himp, herr2, hrule, herr3, hqry]
  · intro heof hstep
    simp [parseLoop, heof, hstep]

/-- C3 witness: concrete alternatives where the import alternative fails with
an error; the step breaks with the import's state and the loop stops. -/
theorem C3_statement_dispatch_witness :
    (@parseStep Nat Nat
        (fun s => (none, s))
        (fun s => (none, { s with errors := ["unexpected token"] }))
        (fun s => (some [99], s))
        (fun s => (some 1, s))
        false ⟨[], false, 0⟩ =
      .brk ⟨["unexpected token"], false, 0⟩) ∧
    (@parseLoop Nat Nat
        (fun s => (none, s))
        (fun s => (none, { s with errors := ["unexpected token"] }))
        (fun s => (some [99], s))
        (fun s => (some 1, s))
        false 4 [] ⟨[], false, 0⟩ =
      ([], ⟨["unexpected token"], false, 0⟩)) := by
  have h := @C3_statement_dispatch Nat Nat
    (fun s => (none, s))
    (fun s => (none, { s with errors := ["unexpected token"] }))
    (fun s => (some [99], s))
    (fun s => (some 1, s))
    ⟨[], false, 0⟩ ⟨["unexpected token"], false, 0⟩ 3 []
  have hstep := h.2.1 ⟨[], false, 0⟩ ⟨["unexpected token"], false, 0⟩ rfl rfl rfl (by simp)
  exact ⟨hstep, h.2.2.2.2 rfl hstep⟩

lemma digitChar_toNat_sub (d : Nat) (hd : d < 10) : (Nat.digitChar d).toNat - 48 = d := by
  interval_cases d <;> decide

lemma toDigitsCore_succ (b f n : Nat) (ds : List Char) :
    Nat.toDigitsCore b (f + 1) n ds =
      if n / b = 0 then Nat.digitChar (n % b) :: ds
      else Nat.toDigitsCore b f (n / b) (Nat.digitChar (n % b) :: ds) := by
  rfl

lemma decDigits_cons (a : Nat) (c : Char) (cs : List Char) :
    decDigits a (c :: cs) = decDigits (a * 10 + (c.toNat - 48)) cs := by
  rfl

lemma decDigits_toDigitsCore (fuel : Nat) :
    ∀ (n a : Nat) (ds : List Char), n < fuel →
      ∃ m, 0 < m ∧ decDigits a (Nat.toDigitsCore 10 fuel n ds) = decDigits (a * m + n) ds := by
  induction fuel with
  | zero => intro n a ds h; exact absurd h (Nat.not_lt_zero n)
  | succ f ih =>
    intro n a ds hn
    by_cases h0 : n / 10 = 0
    · refine ⟨10, by norm_num, ?_⟩
      have hlt : n < 10 := by omega
      rw [toDigitsCore_succ, if_pos h0, decDigits_cons,
        digitChar_toNat_sub (n % 10) (Nat.mod_lt n (by norm_num)), Nat.mod_eq_of_lt hlt]
    · have hpos : 0 < n := by
        rcases Nat.eq_zero_or_pos n with h | h
        · subst h; simp at h0
        · exact h
      have hltf : n / 10 < f := by
        have h1 : n / 10 < n := Nat.div_lt_self hpos (by norm_num)
        omega
      obtain ⟨m, hm, hrec⟩ := ih (n / 10) a (Nat.digitChar (n % 10) :: ds) hltf
      refine ⟨m * 10, by positivity, ?_⟩
      rw [toDigitsCore_succ, if_neg h0, hrec, decDigits_cons,
        digitChar_toNat_sub (n % 10) (Nat.mod_lt n (by norm_num))]
      congr 1
      have h2 : n / 10 * 10 + n % 10 = n := by omega
      calc (a * m + n / 10) * 10 + n % 10
          = a * (m * 10) + (n / 10 * 10 + n % 10) := by ring
        _ = a * (m * 10) + n := by rw [h2]

lemma decDigits_nil (a : Nat) : decDigits a [] = a := rfl

lemma decDigits_toDigits (n : Nat) : decDigits 0 (Nat.toDigits 10 n) = n := by
  obtain ⟨m, _, h⟩ := decDigits_toDigitsCore (n + 1) n 0 [] (Nat.lt_succ_self n)
  have hgoal : decDigits 0 (Nat.toDigitsCore 10 (n + 1) n []) = n := by
    rw [h, decDigits_nil]
    simp
  exact hgoal

lemma natRepr_injective {a b : Nat} (h : Nat.repr a = Nat.repr b) : a = b := by
  have hd : Nat.toDigits 10 a = Nat.toDigits 10 b := by
    have h2 := congrArg String.data h
    simpa [Nat.repr, List.asString] using h2
  have h3 := congrArg (decDigits 0) hd
  rwa [decDigits_toDigits, decDigits_toDigits] at h3

lemma string_append_data (s t : String) : (s ++ t).data = s.data ++ t.data := by
  cases s
  cases t
  rfl

lemma wildcardName_injective {c₁ c₂ : Nat} (h : wildcardName c₁ = wildcardName c₂) :
    c₁ = c₂ := by
  apply natRepr_injective
  have hd := congrArg String.data h
  rw [wildcardName, wildcardName, string_append_data, string_append_data] at hd
  exact String.ext (List.append_cancel_left hd)

/-- C1 counterexample: on the `p[x] if { ... }` head shape (two-element ref,
no value, no Args, no `contains`, `if` follows) the code sets `Head.Key` to
the bracket term `x` — the claim's "Head has no Key" is false. -/
theorem C1_single_value_if_counterexample :
    (normalizeRuleHead headPX true false).map Head.key =
      some (some (Value.var_ "x")) := by
  decide!

/-- C1 (amended): a rule of the form `p[x] if { ... }` normalizes to a
single-value head that retains the two-element ref `p[x]`, carries a
generated boolean-true Value, and has Key set to the bracket term `x`
(the key is kept for backwards compatibility since it is non-ground). -/
theorem C1_single_value_if :
    normalizeRuleHead headPX true false =
      some { name := none, reference := [Value.var_ "p", Value.var_ "x"], args := [],
             key := some (Value.var_ "x"), value := some (Value.bool true),
             assign := false, generatedValue := true, keywords := [] } := by
  decide!

/-- C2: a rule of the form `p[x] { ... }` (no `if`, no `contains`, no Args)
normalizes to a multi-value head with Name = `p`, Key = the bracket term `x`,
no Value (generated-value flag false), and the ref truncated to `[p]`. -/
theorem C2_multi_value :
    normalizeRuleHead headPX false false =
      some { name := some "p", reference := [Value.var_ "p"], args := [],
             key := some (Value.var_ "x"), value := none,
             assign := false, generatedValue := false, keywords := [] } := by
  decide!

/-- C4: every wildcard occurrence is replaced through the strictly increasing
per-parser counter (`parseVar`/`genwildcard`), distinct counters give
distinct names (`Nat.repr` is injective), and parsing `f(_, _)` yields two
Var arguments with the distinct generated names `$0` and `$1`. -/
theorem C4_wildcard_uniqueness :
    (∀ p : PParser, p.st.lit = "_" →
      parseVarF p = (Value.var_ (wildcardName p.st.wildcard),
        { p with st := { p.st with wildcard := p.st.wildcard + 1 } })) ∧
    (∀ c₁ c₂ : Nat, c₁ ≠ c₂ → wildcardName c₁ ≠ wildcardName c₂) ∧
    ((parseTermInfixCallF 300 (initParser toksWild 0)).1 =
        some (Value.call (vlist [Value.ref (vlist [Value.var_ "f"]),
          Value.var_ "$0", Value.var_ "$1"])) ∧
      (Value.var_ "$0" : Value) ≠ Value.var_ "$1") := by
  refine ⟨?_, ?_, by decide!, by decide!⟩
  · intro p h
    simp [parseVarF, genwildcardP, h]
  · intro c₁ c₂ hne heq
    exact hne (wildcardName_injective heq)

/-- C4 witness: the wildcard step applied to a concrete parser, and the
distinctness of the first two generated names. -/
theorem C4_wildcard_uniqueness_witness :
    parseVarF wpWild = (Value.var_ (wildcardName wpWild.st.wildcard),
      { wpWild with st := { wpWild.st with wildcard := wpWild.st.wildcard + 1 } }) ∧
    wildcardName 0 ≠ wildcardName 1 := by
  exact ⟨C4_wildcard_uniqueness.1 wpWild (by decide!),
         C4_wildcard_uniqueness.2.1 0 1 (by decide)⟩

/-- C6: `enter` increments the depth counter; when a positive ceiling is
exceeded it records the sentinel error, decrements immediately (net depth
unchanged) and fails.  With the ceiling 5, `((((((1))))))` fails with exactly
the sentinel error recorded; with the ceiling 0 the check is disabled and the
same input parses to the number `1` with no errors. -/
theorem C6_recursion_guard :
    (∀ p : PParser,
      (0 < p.maxDepth → p.maxDepth < p.depth + 1 →
        enterF p = (false, { p with st := pushErrSt p.st maxRecursionMsg })) ∧
      (¬ (0 < p.maxDepth ∧ p.maxDepth < p.depth + 1) →
        enterF p = (true, { p with depth := p.depth + 1 }))) ∧
    ((parseTermInfixCallF 300 (initParser toksParen6 5)).1 = none ∧
      (parseTermInfixCallF 300 (initParser toksParen6 5)).2.st.errors =
        [maxRecursionMsg]) ∧
    ((parseTermInfixCallF 300 (initParser toksParen6 0)).1 = some (Value.num "1") ∧
      (parseTermInfixCallF 300 (initParser toksParen6 0)).2.st.errors = []) := by
  refine ⟨?_, ⟨by decide!, by decide!⟩, ⟨by decide!, by decide!⟩⟩
  intro p
  constructor
  · intro h1 h2
    unfold enterF
    rw [if_pos ⟨h1, h2⟩]
    cases p with
    | mk st cache depth maxDepth => simp
  · intro hn
    unfold enterF
    rw [if_neg]
    intro hc
    exact hn ⟨hc.1, hc.2⟩

/-- C6 witness: the guard applied at a parser sitting at its ceiling, and at
a parser with the check disabled. -/
theorem C6_recursion_guard_witness :
    enterF { initParser toksParen6 5 with depth := 5 } =
      (false, { { initParser toksParen6 5 with depth := 5 } with
                  st := pushErrSt (initParser toksParen6 5).st maxRecursionMsg }) ∧
    enterF (initParser toksParen6 0) =
      (true, { initParser toksParen6 0 with depth := 0 + 1 }) := by
  exact ⟨(C6_recursion_guard.1 _).1 (by decide) (by decide),
         (C6_recursion_guard.1 _).2 (by decide)⟩

/-- C10: a zero-value RegoVersion is effectively RegoV1: `EffectiveRegoVersion`
returns the default (v1), the whole `Parse` preamble behaves identically to
an explicit v1, the default configuration activates all future keywords
(`in`, `every`, `contains`, `if`), and the v1 capability check applies
(missing `rego_v1` feature is a hard error). -/
theorem C10_undefined_is_v1 :
    (effectiveRegoVersion .undefined = DefaultRegoVersion ∧ DefaultRegoVersion = .v1) ∧
    (∀ po : ParserOptions, po.regoVersion = .undefined →
      parsePrepare po = parsePrepare { po with regoVersion := .v1 }) ∧
    (parsePrepare ⟨none, false, [], .undefined⟩ =
      .ok futureKeywordsV0Table futureKeywordsV0Table) ∧
    (∀ caps : Capabilities, containsFeature caps FeatureRegoV1 = false →
      ∀ (afk : Bool) (fkw : List String),
        parsePrepare ⟨some caps, afk, fkw, .undefined⟩ =
          .err "illegal capabilities: rego_v1 feature required for parsing v1 Rego") := by
  refine ⟨⟨rfl, rfl⟩, ?_, by decide!, ?_⟩
  · intro po h
    cases po with
    | mk c a f v =>
      subst h
      rfl
  · intro caps h afk fkw
    simp [parsePrepare, effectiveRegoVersion, DefaultRegoVersion, h]

/-- C10 witness: the version-irrelevance clause and the capability-check
clause at concrete configurations. -/
theorem C10_undefined_is_v1_witness :
    parsePrepare ⟨none, true, ["in"], .undefined⟩ =
      parsePrepare { (⟨none, true, ["in"], .undefined⟩ : ParserOptions) with
        regoVersion := .v1 } ∧
    parsePrepare ⟨some ⟨[], []⟩, false, [], .undefined⟩ =
      .err "illegal capabilities: rego_v1 feature required for parsing v1 Rego" := by
  exact ⟨C10_undefined_is_v1.2.1 _ rfl,
         C10_undefined_is_v1.2.2.2 ⟨[], []⟩ (by decide) false []⟩
